import Mathlib

/-!
Verification development for a minimal RPC service core: schema model,
wire codec, dispatch table, server runtime and client stub, together with
the concrete `DogService` demo (server registers a `GetDog` handler that
returns `{name := "Spot", age := 5}`; a client calls `GetDog {}`).

The demo's own code (`server.js`, `client.js`) only registers and calls
the handler; the RPC machinery itself (schema parsing, wire codec,
dispatch, framing) is modelled from the specification of the core.
-/

namespace RpcCore

/-! ## Data model -/

/-- Primitive field types of the schema language. -/
inductive PrimType
  | string
  | int32
  | bool
deriving DecidableEq, Repr

/-- Modelled from the spec: a field's type is a primitive or a reference to
another message by name. -/
inductive FieldType
  | prim (p : PrimType)
  | msgRef (name : String)
deriving DecidableEq, Repr

/-- Modelled from the spec: `FieldDef` = {name, number (positive, unique
within its message), type}. -/
structure FieldDef where
  name : String
  number : Nat
  type : FieldType
deriving DecidableEq, Repr

/-- Modelled from the spec: `MessageDef` = {name, ordered fields}. -/
structure MessageDef where
  name : String
  fields : List FieldDef
deriving DecidableEq, Repr

/-- Modelled from the spec: `MethodDef` = {name, requestType, responseType}
(request/response types referenced by message name). -/
structure MethodDef where
  name : String
  requestType : String
  responseType : String
deriving DecidableEq, Repr

/-- Modelled from the spec: `ServiceDef` = {name, ordered methods}. -/
structure ServiceDef where
  name : String
  methods : List MethodDef
deriving DecidableEq, Repr

/-- Modelled from the spec: `SchemaModel` = messages and services, each
keyed by their declared name. -/
structure SchemaModel where
  messages : List MessageDef
  services : List ServiceDef
deriving DecidableEq, Repr

/-- A typed value carried by a message field. -/
inductive MsgValue
  | str (s : String)
  | int (n : Int)
  | bool (b : Bool)
deriving DecidableEq, Repr

/-- Modelled from the spec: a message instance is a mapping from field
name to typed value. -/
abbrev MsgInstance := List (String × MsgValue)

/-- First-match lookup of a field value by field name in an instance. -/
def lookupVal : MsgInstance → String → Option MsgValue
  | [], _ => none
  | (k, v) :: rest, n => if k = n then some v else lookupVal rest n

/-- First-match lookup of a decoded value by field number. -/
def lookupNum : List (Nat × MsgValue) → Nat → Option MsgValue
  | [], _ => none
  | (k, v) :: rest, n => if k = n then some v else lookupNum rest n

/-- Find a message definition by name in the schema. -/
def findMessage (sch : SchemaModel) (name : String) : Option MessageDef :=
  sch.messages.find? (·.name = name)

/-- Find a field definition by field number. -/
def findFieldByNumber (m : MessageDef) (t : Nat) : Option FieldDef :=
  m.fields.find? (·.number = t)

/-! ## Wire codec

Modelled from the spec: a tag-length-value scheme keyed by field number.
Each present field is encoded as `tag :: payloadLength :: payload`; the
wire is a list of natural-number symbols (payload symbols of `int32`
fields are bytes `< 256`, string payload symbols are Unicode code
points). Absent fields are omitted and decode to their type's zero value;
unknown field numbers are skipped during decode. -/

/-- `MalformedWireError{offset, reason}`. -/
structure WireErr where
  offset : Nat
  reason : String
deriving DecidableEq, Repr

/-- 32-bit two's-complement representative of an `int32` value. -/
def toUInt32Repr (n : Int) : Nat :=
  if 0 ≤ n then n.toNat % 4294967296 else (n + 4294967296).toNat % 4294967296

/-- Interpret a 32-bit representative as a signed `int32` value. -/
def fromUInt32Repr (v : Nat) : Int :=
  if v < 2147483648 then (v : Int) else (v : Int) - 4294967296

/-- Big-endian 4-byte encoding of a natural number (mod 2^32). -/
def be4 (v : Nat) : List Nat :=
  [v / 16777216 % 256, v / 65536 % 256, v / 256 % 256, v % 256]

/-- Reassemble a big-endian 4-byte encoding. -/
def ofBe4 (a b c d : Nat) : Nat :=
  a * 16777216 + b * 65536 + c * 256 + d

/-- Is `n` a valid Unicode scalar value? (Mirrors `Nat.isValidChar`.) -/
def validCharNat (n : Nat) : Bool :=
  n < 55296 || (57343 < n && n < 1114112)

/-- Code-point symbols of a string. -/
def strSyms (s : String) : List Nat :=
  s.data.map Char.toNat

/-- Rebuild a string from code-point symbols. -/
def symsStr (l : List Nat) : String :=
  String.mk (l.map Char.ofNat)

/-- Does a value fit a field type (with `int32` range check)? -/
def typeMatches : FieldType → MsgValue → Bool
  | .prim .string, .str _ => true
  | .prim .int32, .int n => decide (-2147483648 ≤ n) && decide (n < 2147483648)
  | .prim .bool, .bool _ => true
  | _, _ => false

/-- The zero value a declared-but-absent field decodes to: empty string,
zero, false. (The spec defines zero values for the primitive types only;
message-typed fields fall outside the modelled codec, see `wfMessage`.) -/
def zeroValue : FieldType → MsgValue
  | .prim .string => .str ""
  | .prim .int32 => .int 0
  | .prim .bool => .bool false
  | .msgRef _ => .str ""

/-- Encode one field payload, when the value fits the declared type. -/
def encodePayload : FieldType → MsgValue → Option (List Nat)
  | .prim .string, .str s => some (strSyms s)
  | .prim .int32, .int n => some (be4 (toUInt32Repr n))
  | .prim .bool, .bool b => some [if b then 1 else 0]
  | _, _ => none

/-- Decode one field payload against the declared type. -/
def decodePayload (t : FieldType) (ofs : Nat) (p : List Nat) : Except WireErr MsgValue :=
  match t with
  | .prim .string =>
    if p.all validCharNat then .ok (.str (symsStr p))
    else .error ⟨ofs, "string payload holds invalid code point"⟩
  | .prim .int32 =>
    match p with
    | [a, b, c, d] => .ok (.int (fromUInt32Repr (ofBe4 a b c d)))
    | _ => .error ⟨ofs, "int32 payload is not 4 bytes"⟩
  | .prim .bool =>
    match p with
    | [0] => .ok (.bool false)
    | [1] => .ok (.bool true)
    | _ => .error ⟨ofs, "bool payload is not a single 0/1 byte"⟩
  | .msgRef _ => .error ⟨ofs, "message-typed fields are outside the codec"⟩

/-- Tag-length-value encoding of one present field. -/
def encodeField (fd : FieldDef) (v : MsgValue) : List Nat :=
  match encodePayload fd.type v with
  | some p => fd.number :: p.length :: p
  | none => []

/-- `encode(MessageDef, instance) → bytes`: concatenate the TLV encodings
of the declared fields present in the instance, in declaration order. -/
def encode (m : MessageDef) (i : MsgInstance) : List Nat :=
  (m.fields.map fun fd =>
    match lookupVal i fd.name with
    | some v => encodeField fd v
    | none => []).flatten

/-- Decode loop: read `tag :: len :: payload` units; decode payloads of
field numbers declared in `m`, skip unknown field numbers; fail with a
`WireErr` on truncated input or payload/type mismatches. Each unit
consumes at least two symbols, so any `fuel ≥ bytes.length` makes the
fuel-exhaustion branch unreachable (`decode` passes `bytes.length`). -/
def decodeLoop (m : MessageDef) : Nat → Nat → List Nat →
    Except WireErr (List (Nat × MsgValue))
  | _, _, [] => .ok []
  | _, ofs, [_] => .error ⟨ofs + 1, "truncated field header"⟩
  | 0, ofs, _ :: _ :: _ => .error ⟨ofs, "fuel exhausted"⟩
  | fuel + 1, ofs, t :: l :: rest =>
    if rest.length < l then .error ⟨ofs + 2, "truncated field payload"⟩
    else
      match findFieldByNumber m t with
      | some fd =>
        match decodePayload fd.type (ofs + 2) (rest.take l) with
        | .error e => .error e
        | .ok v => (decodeLoop m fuel (ofs + 2 + l) (rest.drop l)).map ((t, v) :: ·)
      | none => decodeLoop m fuel (ofs + 2 + l) (rest.drop l)

/-- Build the decoded instance: every declared field, in declaration
order, mapped to its decoded value or its type's zero value. -/
def buildInstance (m : MessageDef) (pairs : List (Nat × MsgValue)) : MsgInstance :=
  m.fields.map fun fd => (fd.name, (lookupNum pairs fd.number).getD (zeroValue fd.type))

/-- `decode(MessageDef, bytes) → instance` or `MalformedWireError`. -/
def decode (m : MessageDef) (bytes : List Nat) : Except WireErr MsgInstance :=
  (decodeLoop m bytes.length 0 bytes).map (buildInstance m)

/-- Zero-value normalization of an instance against a message definition:
declared fields in declaration order, absent ones filled with zero values. -/
def normalize (m : MessageDef) (i : MsgInstance) : MsgInstance :=
  m.fields.map fun fd => (fd.name, (lookupVal i fd.name).getD (zeroValue fd.type))

/-- Is a field type primitive? -/
def isPrimType : FieldType → Bool
  | .prim _ => true
  | .msgRef _ => false

/-- Well-formedness of a message definition for the codec: primitive field
types, positive field numbers, numbers and names unique. -/
def wfMessage (m : MessageDef) : Prop :=
  (∀ fd ∈ m.fields, isPrimType fd.type = true ∧ 0 < fd.number) ∧
  (m.fields.map (·.number)).Nodup ∧
  (m.fields.map (·.name)).Nodup

/-- Validity of an instance against a message definition: every entry
looked up under a declared field name fits that field's type. -/
def validInstance (m : MessageDef) (i : MsgInstance) : Prop :=
  ∀ fd ∈ m.fields, ((lookupVal i fd.name).all fun v => typeMatches fd.type v) = true

instance : DecidablePred wfMessage := fun m => by
  unfold wfMessage
  infer_instance

instance (m : MessageDef) : DecidablePred (validInstance m) := fun i => by
  unfold validInstance
  infer_instance

/-! ## Wire framing

Modelled from the spec: requests are
`[4-byte big-endian total length][method name, length-prefixed][payload]`;
responses are `[4-byte length][status byte: 0=ok/1=error][payload or
error message]`. -/

/-- Frame a request: big-endian length, then length-prefixed method name,
then the wire-encoded request body. -/
def encodeRequestFrame (methodName : String) (body : List Nat) : List Nat :=
  be4 (1 + methodName.length + body.length) ++
    methodName.length :: strSyms methodName ++ body

/-- Unframe a request into method name and body. -/
def decodeRequestFrame (bytes : List Nat) : Except WireErr (String × List Nat) :=
  match bytes with
  | b0 :: b1 :: b2 :: b3 :: rest =>
    if rest.length = ofBe4 b0 b1 b2 b3 then
      match rest with
      | [] => .error ⟨4, "missing method name length"⟩
      | nl :: rest2 =>
        if rest2.length < nl then .error ⟨5, "truncated method name"⟩
        else
          if (rest2.take nl).all validCharNat then
            .ok (symsStr (rest2.take nl), rest2.drop nl)
          else .error ⟨5, "method name holds invalid code point"⟩
    else .error ⟨0, "frame length mismatch"⟩
  | _ => .error ⟨0, "truncated length prefix"⟩

/-- Frame a success response: status byte 0, then the encoded body. -/
def encodeOkFrame (body : List Nat) : List Nat :=
  be4 (1 + body.length) ++ 0 :: body

/-- Frame an error response: status byte 1, then error code and message. -/
def encodeErrFrame (code : Nat) (message : String) : List Nat :=
  be4 (2 + message.length) ++ 1 :: code :: strSyms message

/-- Unframe a response into status byte and payload. -/
def decodeResponseFrame (bytes : List Nat) : Except WireErr (Nat × List Nat) :=
  match bytes with
  | b0 :: b1 :: b2 :: b3 :: rest =>
    if rest.length = ofBe4 b0 b1 b2 b3 then
      match rest with
      | [] => .error ⟨4, "missing status byte"⟩
      | status :: payload =>
        if status = 0 || status = 1 then .ok (status, payload)
        else .error ⟨4, "invalid status byte"⟩
    else .error ⟨0, "frame length mismatch"⟩
  | _ => .error ⟨0, "truncated length prefix"⟩

/-! ## Errors and dispatch table -/

/-- `RemoteError{code, message}`: an application-level failure reported by
a handler. -/
structure RemoteError where
  code : Nat
  message : String
deriving DecidableEq, Repr

/-- `UnknownMethodError`: no handler registered under the method name. -/
structure UnknownMethodError where
  methodName : String
deriving DecidableEq, Repr

/-- `DuplicateHandlerError`: a handler is already registered under the
method name. -/
structure DuplicateHandlerError where
  methodName : String
deriving DecidableEq, Repr

/-- A handler takes a decoded request instance and returns a response
instance or an application error. -/
def Handler := MsgInstance → Except RemoteError MsgInstance

/-- The dispatch table maps method names to handlers. -/
structure DispatchTable where
  entries : List (String × Handler)

/-- First-match lookup of a handler by method name. -/
def lookupHandler : List (String × Handler) → String → Option Handler
  | [], _ => none
  | (k, h) :: rest, n => if k = n then some h else lookupHandler rest n

/-- `register(methodName, handler)`: fails with `DuplicateHandlerError` if
already registered. -/
def register (t : DispatchTable) (name : String) (h : Handler) :
    Except DuplicateHandlerError DispatchTable :=
  match lookupHandler t.entries name with
  | some _ => .error ⟨name⟩
  | none => .ok ⟨t.entries ++ [(name, h)]⟩

/-- `resolve(methodName) → handler`: fails with `UnknownMethodError` if
absent. -/
def resolve (t : DispatchTable) (name : String) : Except UnknownMethodError Handler :=
  match lookupHandler t.entries name with
  | some h => .ok h
  | none => .error ⟨name⟩

/-- Register a list of handlers in order, starting from a table. -/
def setupFrom (t : DispatchTable) : List (String × Handler) →
    Except DuplicateHandlerError DispatchTable
  | [] => .ok t
  | (n, h) :: rest =>
    match register t n h with
    | .error e => .error e
    | .ok t2 => setupFrom t2 rest

/-- Server setup: build the dispatch table from the registrations; any
`DuplicateHandlerError` aborts setup and the server does not start. -/
def setupServer (regs : List (String × Handler)) :
    Except DuplicateHandlerError DispatchTable :=
  setupFrom ⟨[]⟩ regs

/-! ## Server runtime -/

/-- Find a method's request and response message definitions in the
schema: search every service's methods by name, then resolve the message
names. -/
def findMethod (sch : SchemaModel) (name : String) :
    Option (MessageDef × MessageDef) :=
  match sch.services.findSome? (fun s => s.methods.find? (·.name = name)) with
  | none => none
  | some md =>
    match findMessage sch md.requestType, findMessage sch md.responseType with
    | some rq, some rs => some (rq, rs)
    | _, _ => none

/-- Error code used when the requested method is unknown. -/
def unknownMethodCode : Nat := 12

/-- Error code used when the request is malformed on the wire. -/
def malformedCode : Nat := 3

/-- Modelled from the spec: per-request server processing. Read one
framed request, resolve the method in the dispatch table, decode the
body against the request type, invoke the handler, and frame either the
encoded response or an error response (code + message); every failure
becomes an error frame, never a crash. -/
def handleRequestBytes (sch : SchemaModel) (t : DispatchTable) (bytes : List Nat) :
    List Nat :=
  match decodeRequestFrame bytes with
  | .error e => encodeErrFrame malformedCode e.reason
  | .ok (methodName, body) =>
    match resolve t methodName with
    | .error e => encodeErrFrame unknownMethodCode ("unknown method " ++ e.methodName)
    | .ok handler =>
      match findMethod sch methodName with
      | none => encodeErrFrame unknownMethodCode ("unknown method " ++ methodName)
      | some (reqDef, respDef) =>
        match decode reqDef body with
        | .error e => encodeErrFrame malformedCode e.reason
        | .ok inst =>
          match handler inst with
          | .error re => encodeErrFrame re.code re.message
          | .ok out => encodeOkFrame (encode respDef out)

/-- Per-connection server state: the shared schema and dispatch table,
the requests not yet processed, the responses written so far, and
whether the connection is closed. -/
structure ConnState where
  model : SchemaModel
  table : DispatchTable
  pending : List (List Nat)
  sent : List (List Nat)
  closed : Bool

/-- One step of the per-connection state machine: process the next
pending request and append its response; an idle or closed connection is
left unchanged. -/
def serverStep (s : ConnState) : ConnState :=
  if s.closed then s
  else
    match s.pending with
    | [] => s
    | req :: rest =>
      { s with
        pending := rest
        sent := s.sent ++ [handleRequestBytes s.model s.table req] }

/-! ## Client stub -/

/-- Outcome of handing a framed request to the transport. -/
inductive TransportResult
  | delivered (resp : List Nat)
  | connFail
  | timedOut

/-- The transport collaborator: a framed request either yields a framed
response, fails to connect, or times out. -/
def Transport := List Nat → TransportResult

/-- The typed errors a client call can fail with. -/
inductive ClientError
  | connectionError
  | timeoutError
  | malformedWire (e : WireErr)
  | remote (e : RemoteError)
  | unknownMethod (e : UnknownMethodError)
deriving DecidableEq, Repr

/-- Modelled from the spec: `call(methodName, requestInstance)` encodes
the request against the method's request type, writes one framed request,
and decodes the framed response: a status-0 frame decodes against the
response type, a status-1 frame becomes a `RemoteError`; transport and
wire failures surface as the corresponding typed error. -/
def clientCall (sch : SchemaModel) (tr : Transport) (methodName : String)
    (req : MsgInstance) : Except ClientError MsgInstance :=
  match findMethod sch methodName with
  | none => .error (.unknownMethod ⟨methodName⟩)
  | some (reqDef, respDef) =>
    match tr (encodeRequestFrame methodName (encode reqDef req)) with
    | .connFail => .error .connectionError
    | .timedOut => .error .timeoutError
    | .delivered resp =>
      match decodeResponseFrame resp with
      | .error e => .error (.malformedWire e)
      | .ok (status, payload) =>
        if status = 0 then
          match decode respDef payload with
          | .error e => .error (.malformedWire e)
          | .ok out => .ok out
        else
          match payload with
          | code :: msgSyms => .error (.remote ⟨code, symsStr msgSyms⟩)
          | [] => .error (.malformedWire ⟨5, "empty error payload"⟩)

/-- Client-side state: the shared schema, calls not yet issued, and the
results received so far. -/
structure ClientState where
  model : SchemaModel
  calls : List (String × MsgInstance)
  results : List (Except ClientError MsgInstance)

/-- One step of the client: issue the next queued call through the
transport and record its result. -/
def clientStep (tr : Transport) (s : ClientState) : ClientState :=
  match s.calls with
  | [] => s
  | (name, req) :: rest =>
    { s with
      calls := rest
      results := s.results ++ [clientCall s.model tr name req] }

/-! ## The DogService demo

From `server.js` / `client.js` and the schema they load: messages
`Empty {}` and `Dog {name: string = 1, age: int32 = 2}`, service
`DogService { rpc GetDog (Empty) returns (Dog) }`; the server registers a
`GetDog` handler that returns `{name: "Spot", age: 5}`. -/

/-- The `Empty` message definition. -/
def emptyDef : MessageDef := ⟨"Empty", []⟩

/-- The `Dog` message definition. -/
def dogDef : MessageDef :=
  ⟨"Dog", [⟨"name", 1, .prim .string⟩, ⟨"age", 2, .prim .int32⟩]⟩

/-- The schema the demo loads. -/
def dogSchema : SchemaModel :=
  ⟨[emptyDef, dogDef], [⟨"DogService", [⟨"GetDog", "Empty", "Dog"⟩]⟩]⟩

/-- The instance `{name: "Spot", age: 5}` the handler returns. -/
def spotInstance : MsgInstance :=
  [("name", .str "Spot"), ("age", .int 5)]

/-- The `GetDog` handler from `server.js`: ignores its input and answers
`{name: "Spot", age: 5}`. -/
def getDogHandler : Handler := fun _ => .ok spotInstance

/-- The dispatch table `server.js` builds: exactly one handler, `GetDog`. -/
def dogTable : DispatchTable := ⟨[("GetDog", getDogHandler)]⟩

/-- A loopback transport that delivers every framed request to the demo
server and returns its framed response. -/
def loopbackTransport : Transport := fun req =>
  .delivered (handleRequestBytes dogSchema dogTable req)

/-! ## Schema parser

Modelled from the spec: `parse(text) → SchemaModel` or fails with a
positioned SyntaxError; message blocks hold ordered numbered fields,
service blocks hold `rpc Name (ReqType) returns (RespType)` signatures.
Field type names are resolved only after all messages are parsed, so
forward references across messages succeed; an unresolvable type name
fails with `UnknownTypeError{messageName, fieldName, typeName}`. -/

/-- Parse errors: positioned `SyntaxError{line, column, message}` or
`UnknownTypeError{messageName, fieldName, typeName}`. -/
inductive ParseError
  | synErr (line col : Nat) (message : String)
  | unknownType (messageName fieldName typeName : String)
deriving DecidableEq, Repr

/-- Schema-language tokens. -/
inductive Tok
  | ident (s : String)
  | number (n : Nat)
  | lbrace
  | rbrace
  | lparen
  | rparen
  | semi
  | eqSym
deriving DecidableEq, Repr

/-- A token with the line and column where it starts. -/
structure PTok where
  tok : Tok
  line : Nat
  col : Nat
deriving DecidableEq, Repr

/-- A token being accumulated by the tokenizer. -/
inductive PartialTok
  | idle
  | ident (line col : Nat) (chars : List Char)
  | num (line col : Nat) (val : Nat)
deriving Repr

/-- Characters that may appear in an identifier. -/
def isIdentChar (c : Char) : Bool :=
  c.isAlpha || c.isDigit || c = '_'

/-- The opening-brace character. -/
def lbraceChar : Char := Char.ofNat 123

/-- The closing-brace character. -/
def rbraceChar : Char := Char.ofNat 125

/-- Emit the pending partial token, if any. -/
def flushPartial (pt : PartialTok) (acc : List PTok) : List PTok :=
  match pt with
  | .idle => acc
  | .ident line col chars => ⟨.ident (String.mk chars.reverse), line, col⟩ :: acc
  | .num line col val => ⟨.number val, line, col⟩ :: acc

/-- Single-pass tokenizer: one character per step, tracking line and
column; an unexpected character is a positioned syntax error. -/
def tokenizeAux : List Char → Nat → Nat → PartialTok → List PTok →
    Except ParseError (List PTok)
  | [], _, _, pt, acc => .ok (flushPartial pt acc).reverse
  | c :: cs, line, col, pt, acc =>
    if c.isDigit then
      match pt with
      | .ident il ic chars => tokenizeAux cs line (col + 1) (.ident il ic (c :: chars)) acc
      | .num il ic val => tokenizeAux cs line (col + 1) (.num il ic (val * 10 + (c.toNat - 48))) acc
      | .idle => tokenizeAux cs line (col + 1) (.num line col (c.toNat - 48)) acc
    else if isIdentChar c then
      match pt with
      | .ident il ic chars => tokenizeAux cs line (col + 1) (.ident il ic (c :: chars)) acc
      | .num _ _ _ => .error (.synErr line col "identifier may not start with a digit")
      | .idle => tokenizeAux cs line (col + 1) (.ident line col [c]) acc
    else
      let acc2 := flushPartial pt acc
      if c = '\n' then tokenizeAux cs (line + 1) 1 .idle acc2
      else if c = ' ' || c = '\t' || c = '\r' then tokenizeAux cs line (col + 1) .idle acc2
      else if c = lbraceChar then tokenizeAux cs line (col + 1) .idle (⟨.lbrace, line, col⟩ :: acc2)
      else if c = rbraceChar then tokenizeAux cs line (col + 1) .idle (⟨.rbrace, line, col⟩ :: acc2)
      else if c = '(' then tokenizeAux cs line (col + 1) .idle (⟨.lparen, line, col⟩ :: acc2)
      else if c = ')' then tokenizeAux cs line (col + 1) .idle (⟨.rparen, line, col⟩ :: acc2)
      else if c = ';' then tokenizeAux cs line (col + 1) .idle (⟨.semi, line, col⟩ :: acc2)
      else if c = '=' then tokenizeAux cs line (col + 1) .idle (⟨.eqSym, line, col⟩ :: acc2)
      else .error (.synErr line col "unexpected character")

/-- Tokenize a schema text. -/
def tokenize (text : String) : Except ParseError (List PTok) :=
  tokenizeAux text.data 1 1 .idle []

/-- A parsed field before type resolution: the type is still a name. -/
structure RawField where
  name : String
  number : Nat
  typeName : String
deriving DecidableEq, Repr

/-- A parsed message before type resolution. -/
structure RawMessage where
  name : String
  fields : List RawField
deriving DecidableEq, Repr

/-- Parse the fields of a message block up to its closing brace:
each field is `TypeName fieldName = number ;`. -/
def parseFields : List PTok → Except ParseError (List RawField × List PTok)
  | ⟨.rbrace, _, _⟩ :: rest => .ok ([], rest)
  | ⟨.ident tyName, _, _⟩ :: ⟨.ident fldName, _, _⟩ :: ⟨.eqSym, _, _⟩ ::
      ⟨.number n, _, _⟩ :: ⟨.semi, _, _⟩ :: rest =>
    match parseFields rest with
    | .error e => .error e
    | .ok (fs, rest2) => .ok (⟨fldName, n, tyName⟩ :: fs, rest2)
  | ptk :: _ => .error (.synErr ptk.line ptk.col "expected field declaration or closing brace")
  | [] => .error (.synErr 0 0 "unexpected end of input in message block")

/-- Parse the method signatures of a service block up to its closing
brace: `rpc Name (ReqType) returns (RespType)` followed by `{}` or `;`. -/
def parseRpcs : List PTok → Except ParseError (List MethodDef × List PTok)
  | ⟨.rbrace, _, _⟩ :: rest => .ok ([], rest)
  | ⟨.ident "rpc", _, _⟩ :: ⟨.ident mName, _, _⟩ :: ⟨.lparen, _, _⟩ ::
      ⟨.ident reqTy, _, _⟩ :: ⟨.rparen, _, _⟩ :: ⟨.ident "returns", _, _⟩ ::
      ⟨.lparen, _, _⟩ :: ⟨.ident respTy, _, _⟩ :: ⟨.rparen, _, _⟩ ::
      ⟨.lbrace, _, _⟩ :: ⟨.rbrace, _, _⟩ :: rest =>
    match parseRpcs rest with
    | .error e => .error e
    | .ok (ms, rest2) => .ok (⟨mName, reqTy, respTy⟩ :: ms, rest2)
  | ⟨.ident "rpc", _, _⟩ :: ⟨.ident mName, _, _⟩ :: ⟨.lparen, _, _⟩ ::
      ⟨.ident reqTy, _, _⟩ :: ⟨.rparen, _, _⟩ :: ⟨.ident "returns", _, _⟩ ::
      ⟨.lparen, _, _⟩ :: ⟨.ident respTy, _, _⟩ :: ⟨.rparen, _, _⟩ ::
      ⟨.semi, _, _⟩ :: rest =>
    match parseRpcs rest with
    | .error e => .error e
    | .ok (ms, rest2) => .ok (⟨mName, reqTy, respTy⟩ :: ms, rest2)
  | ptk :: _ => .error (.synErr ptk.line ptk.col "expected rpc declaration or closing brace")
  | [] => .error (.synErr 0 0 "unexpected end of input in service block")

/-- Parse the top-level sequence of message and service blocks. The fuel
bounds the recursion; `parse` passes `tokens.length + 1`, which is never
exhausted since each block consumes at least three tokens. -/
def parseTop : Nat → List PTok → Except ParseError (List RawMessage × List ServiceDef)
  | _, [] => .ok ([], [])
  | 0, _ => .error (.synErr 0 0 "fuel exhausted")
  | fuel + 1, ⟨.ident "message", _, _⟩ :: ⟨.ident nm, _, _⟩ :: ⟨.lbrace, _, _⟩ :: rest =>
    match parseFields rest with
    | .error e => .error e
    | .ok (fs, rest2) =>
      match parseTop fuel rest2 with
      | .error e => .error e
      | .ok (ms, ss) => .ok (⟨nm, fs⟩ :: ms, ss)
  | fuel + 1, ⟨.ident "service", _, _⟩ :: ⟨.ident nm, _, _⟩ :: ⟨.lbrace, _, _⟩ :: rest =>
    match parseRpcs rest with
    | .error e => .error e
    | .ok (rpcs, rest2) =>
      match parseTop fuel rest2 with
      | .error e => .error e
      | .ok (ms, ss) => .ok (ms, ⟨nm, rpcs⟩ :: ss)
  | _ + 1, ptk :: _ => .error (.synErr ptk.line ptk.col "expected message or service block")

/-- Resolve one field's type name, after all messages are parsed: a
primitive name, or a reference to any declared message (earlier or
later), else `UnknownTypeError`. -/
def resolveFieldType (msgs : List RawMessage) (mName fName tyName : String) :
    Except ParseError FieldType :=
  if tyName = "string" then .ok (.prim .string)
  else if tyName = "int32" then .ok (.prim .int32)
  else if tyName = "bool" then .ok (.prim .bool)
  else if msgs.any (·.name = tyName) then .ok (.msgRef tyName)
  else .error (.unknownType mName fName tyName)

/-- Resolve the types of a message's fields. -/
def resolveFields (msgs : List RawMessage) (mName : String) :
    List RawField → Except ParseError (List FieldDef)
  | [] => .ok []
  | rf :: rest =>
    match resolveFieldType msgs mName rf.name rf.typeName with
    | .error e => .error e
    | .ok ft =>
      match resolveFields msgs mName rest with
      | .error e => .error e
      | .ok fds => .ok (⟨rf.name, rf.number, ft⟩ :: fds)

/-- Resolve every parsed message against the full parsed message list. -/
def resolveMessages (msgs : List RawMessage) :
    List RawMessage → Except ParseError (List MessageDef)
  | [] => .ok []
  | rm :: rest =>
    match resolveFields msgs rm.name rm.fields with
    | .error e => .error e
    | .ok fds =>
      match resolveMessages msgs rest with
      | .error e => .error e
      | .ok mds => .ok (⟨rm.name, fds⟩ :: mds)

/-- `parse(text) → SchemaModel`: tokenize, parse all blocks, then resolve
field types against the complete message list. -/
def parse (text : String) : Except ParseError SchemaModel :=
  match tokenize text with
  | .error e => .error e
  | .ok toks =>
    match parseTop (toks.length + 1) toks with
    | .error e => .error e
    | .ok (rawMsgs, svcs) =>
      match resolveMessages rawMsgs rawMsgs with
      | .error e => .error e
      | .ok msgs => .ok ⟨msgs, svcs⟩

/-- The demo's schema text (`service_def.proto` from the readme, without
the `syntax` header line, which is outside the modelled grammar). -/
def dogProtoText : String :=
  "message Empty \x7b\x7d\nmessage Dog \x7b\n  string name = 1;\n  int32 age = 2;\n\x7d\nservice DogService \x7b\n  rpc GetDog (Empty) returns (Dog) \x7b\x7d\n\x7d\n"

/-- A handler that always raises an application error, used to exercise
the server's error path. -/
def boomHandler : Handler := fun _ => .error ⟨13, "boom"⟩

/-- A dispatch table whose `GetDog` handler always raises. -/
def boomTable : DispatchTable := ⟨[("GetDog", boomHandler)]⟩

/-- An extra field, unknown to the `Dog` message, used to exercise
forward compatibility. -/
def weightField : FieldDef := ⟨"weight", 3, .prim .int32⟩

/-- A schema model is fully resolved when every field's type is a
primitive or a reference to a message present in the model. -/
def resolvedModel (sch : SchemaModel) : Prop :=
  ∀ m ∈ sch.messages, ∀ fd ∈ m.fields,
    isPrimType fd.type = true ∨ ∃ nm, fd.type = .msgRef nm ∧ (findMessage sch nm).isSome

/-! ## Codec lemmas -/

/-- The declared fields present in an instance, paired with their values,
in declaration order. -/
def presentFields (fds : List FieldDef) (i : MsgInstance) : List (FieldDef × MsgValue) :=
  fds.filterMap fun fd => (lookupVal i fd.name).map fun v => (fd, v)

/-- Concatenated TLV encodings of a list of field/value pairs. -/
def encodeFVs (l : List (FieldDef × MsgValue)) : List Nat :=
  (l.map fun fv => encodeField fv.1 fv.2).flatten

/-- The tag/value pairs the decode loop keeps: those whose field number
is declared in the target message. -/
def knownPairs (m : MessageDef) (l : List (FieldDef × MsgValue)) : List (Nat × MsgValue) :=
  l.filterMap fun fv =>
    if (findFieldByNumber m fv.1.number).isSome then some (fv.1.number, fv.2) else none

theorem validCharNat_toNat (c : Char) : validCharNat c.toNat = true := by
  have h := c.valid
  simp only [UInt32.isValidChar, Nat.isValidChar] at h
  simp only [validCharNat, Char.toNat, Bool.or_eq_true, decide_eq_true_eq,
    Bool.and_eq_true]
  omega

theorem symsStr_strSyms (s : String) : symsStr (strSyms s) = s := by
  cases s with
  | mk data =>
    simp [symsStr, strSyms, List.map_map, Function.comp_def, Char.ofNat_toNat]

theorem strSyms_all_valid (s : String) : (strSyms s).all validCharNat = true := by
  simp only [strSyms, List.all_eq_true, List.mem_map]
  rintro n ⟨c, _, rfl⟩
  exact validCharNat_toNat c

theorem fromUInt32Repr_toUInt32Repr (n : Int) (h1 : -2147483648 ≤ n)
    (h2 : n < 2147483648) : fromUInt32Repr (toUInt32Repr n) = n := by
  simp only [toUInt32Repr, fromUInt32Repr]
  split <;> split <;> omega

theorem ofBe4_be4 (v : Nat) (h : v < 4294967296) :
    ofBe4 (v / 16777216 % 256) (v / 65536 % 256) (v / 256 % 256) (v % 256) = v := by
  simp only [ofBe4]
  omega

/-- Decoding a payload produced by `encodePayload` recovers the value. -/
theorem decodePayload_encodePayload (t : FieldType) (v : MsgValue) (p : List Nat)
    (hm : typeMatches t v = true) (he : encodePayload t v = some p) (ofs : Nat) :
    decodePayload t ofs p = .ok v := by
  cases t with
  | prim pt =>
    cases pt <;> cases v <;> simp [typeMatches] at hm
    · -- string payload
      simp only [encodePayload, Option.some.injEq] at he
      subst he
      simp [decodePayload, strSyms_all_valid, symsStr_strSyms]
    · -- int32 payload
      simp only [encodePayload, Option.some.injEq] at he
      subst he
      rename_i n
      have hlt : toUInt32Repr n < 4294967296 := by
        simp only [toUInt32Repr]; split <;> omega
      simp only [be4, decodePayload]
      rw [ofBe4_be4 _ hlt]
      rw [fromUInt32Repr_toUInt32Repr n hm.1 hm.2]
    · -- bool payload
      simp only [encodePayload, Option.some.injEq] at he
      subst he
      rename_i b
      cases b <;> simp [decodePayload]
  | msgRef nm => cases v <;> simp [typeMatches] at hm

theorem encodePayload_isSome (t : FieldType) (v : MsgValue)
    (hm : typeMatches t v = true) : ∃ p, encodePayload t v = some p := by
  cases t with
  | prim pt =>
    cases pt <;> cases v <;> (try simp [typeMatches] at hm) <;> exact ⟨_, rfl⟩
  | msgRef nm => cases v <;> simp [typeMatches] at hm

/-- Running the decode loop over the concatenated encodings of a list of
field/value pairs succeeds, keeps exactly the pairs whose number the
target message declares (with the right value), and skips the rest. -/
theorem decodeLoop_encodeFVs (m : MessageDef) :
    ∀ (l : List (FieldDef × MsgValue)) (fuel ofs : Nat),
    (encodeFVs l).length ≤ fuel →
    (∀ fv ∈ l, typeMatches fv.1.type fv.2 = true ∧
      ∀ fd2, findFieldByNumber m fv.1.number = some fd2 → fd2.type = fv.1.type) →
    decodeLoop m fuel ofs (encodeFVs l) = .ok (knownPairs m l) := by
  intro l
  induction l with
  | nil =>
    intro fuel ofs _ _
    simp [encodeFVs, knownPairs, decodeLoop]
  | cons fv tl ih =>
    intro fuel ofs hfuel hl
    obtain ⟨hm, hcompat⟩ := hl fv (List.mem_cons_self fv tl)
    obtain ⟨p, hp⟩ := encodePayload_isSome fv.1.type fv.2 hm
    have henc : encodeFVs (fv :: tl) =
        fv.1.number :: p.length :: (p ++ encodeFVs tl) := by
      simp [encodeFVs, encodeField, hp]
    rw [henc] at hfuel ⊢
    simp only [List.length_cons, List.length_append] at hfuel
    cases fuel with
    | zero => omega
    | succ f =>
      simp only [decodeLoop]
      rw [if_neg (by simp [List.length_append])]
      rw [List.take_left, List.drop_left]
      have htail : (encodeFVs tl).length ≤ f := by omega
      have hrest : ∀ fv2 ∈ tl, typeMatches fv2.1.type fv2.2 = true ∧
          ∀ fd2, findFieldByNumber m fv2.1.number = some fd2 → fd2.type = fv2.1.type :=
        fun fv2 h2 => hl fv2 (List.mem_cons_of_mem fv h2)
      cases hfind : findFieldByNumber m fv.1.number with
      | some fd2 =>
        dsimp only
        rw [hcompat fd2 hfind]
        rw [decodePayload_encodePayload fv.1.type fv.2 p hm hp (ofs + 2)]
        rw [ih f (ofs + 2 + p.length) htail hrest]
        simp [knownPairs, hfind, Except.map]
      | none =>
        dsimp only
        rw [ih f (ofs + 2 + p.length) htail hrest]
        simp [knownPairs, hfind]

theorem encode_eq_encodeFVs (m : MessageDef) (i : MsgInstance) :
    encode m i = encodeFVs (presentFields m.fields i) := by
  simp only [encode, encodeFVs, presentFields]
  induction m.fields with
  | nil => simp
  | cons fd tl ih =>
    cases h : lookupVal i fd.name with
    | some v => simp [h, ih]
    | none => simp [h, ih]

theorem mem_presentFields (fds : List FieldDef) (i : MsgInstance)
    (fv : FieldDef × MsgValue) (h : fv ∈ presentFields fds i) :
    fv.1 ∈ fds ∧ lookupVal i fv.1.name = some fv.2 := by
  simp only [presentFields, List.mem_filterMap] at h
  obtain ⟨fd, hmem, hres⟩ := h
  cases hlk : lookupVal i fd.name with
  | some v =>
    rw [hlk] at hres
    simp only [Option.map_some', Option.some.injEq] at hres
    subst hres
    exact ⟨hmem, hlk⟩
  | none => rw [hlk] at hres; simp at hres

theorem find?_number_self (fds : List FieldDef)
    (h : (fds.map (·.number)).Nodup) (fd : FieldDef) (hmem : fd ∈ fds) :
    fds.find? (·.number = fd.number) = some fd := by
  induction fds with
  | nil => simp at hmem
  | cons g tl ih =>
    simp only [List.map_cons, List.nodup_cons, List.mem_map] at h
    rcases List.mem_cons.mp hmem with rfl | hmem2
    · simp
    · have hne : g.number ≠ fd.number := by
        intro he
        exact h.1 ⟨fd, hmem2, he.symm⟩
      rw [List.find?_cons_of_neg _ (by simpa using hne)]
      exact ih h.2 hmem2

theorem findFieldByNumber_self (m : MessageDef)
    (h : (m.fields.map (·.number)).Nodup) (fd : FieldDef) (hmem : fd ∈ m.fields) :
    findFieldByNumber m fd.number = some fd :=
  find?_number_self m.fields h fd hmem

theorem findFieldByNumber_none (m : MessageDef) (t : Nat)
    (h : t ∉ m.fields.map (·.number)) : findFieldByNumber m t = none := by
  unfold findFieldByNumber
  rw [List.find?_eq_none]
  intro fd hmem heq
  simp only [decide_eq_true_eq] at heq
  exact h (List.mem_map.mpr ⟨fd, hmem, heq⟩)

theorem lookupNum_presentFields_none (fds : List FieldDef) (i : MsgInstance)
    (n : Nat) (h : n ∉ fds.map (·.number)) :
    lookupNum ((presentFields fds i).map fun fv => (fv.1.number, fv.2)) n = none := by
  induction fds with
  | nil => simp [presentFields, lookupNum]
  | cons fd tl ih =>
    simp only [List.map_cons, List.mem_cons, not_or] at h
    cases hlk : lookupVal i fd.name with
    | some v =>
      simp only [presentFields, List.filterMap_cons, hlk, Option.map_some']
      simp only [List.map_cons, lookupNum]
      rw [if_neg (fun he => h.1 he.symm)]
      exact ih h.2
    | none =>
      simp only [presentFields, List.filterMap_cons, hlk, Option.map_none']
      exact ih h.2

theorem lookupNum_presentFields (fds : List FieldDef) (i : MsgInstance)
    (h : (fds.map (·.number)).Nodup) (fd : FieldDef) (hmem : fd ∈ fds) :
    lookupNum ((presentFields fds i).map fun fv => (fv.1.number, fv.2)) fd.number =
      lookupVal i fd.name := by
  induction fds with
  | nil => simp at hmem
  | cons g tl ih =>
    simp only [List.map_cons, List.nodup_cons, List.mem_map] at h
    rcases List.mem_cons.mp hmem with rfl | hmem2
    · cases hlk : lookupVal i fd.name with
      | some v =>
        simp only [presentFields, List.filterMap_cons, hlk, Option.map_some']
        simp [lookupNum]
      | none =>
        simp only [presentFields, List.filterMap_cons, hlk, Option.map_none']
        exact lookupNum_presentFields_none tl i fd.number fun hc =>
          h.1 (List.mem_map.mp hc)
    · have hne : g.number ≠ fd.number := by
        intro he
        exact h.1 ⟨fd, hmem2, he.symm⟩
      cases hlk : lookupVal i g.name with
      | some v =>
        simp only [presentFields, List.filterMap_cons, hlk, Option.map_some']
        simp only [List.map_cons, lookupNum]
        rw [if_neg hne]
        exact ih h.2 hmem2
      | none =>
        simp only [presentFields, List.filterMap_cons, hlk, Option.map_none']
        exact ih h.2 hmem2

theorem lookupVal_map_fields (fds : List FieldDef) (g : FieldDef → MsgValue)
    (h : (fds.map (·.name)).Nodup) (fd : FieldDef) (hmem : fd ∈ fds) :
    lookupVal (fds.map fun fd2 => (fd2.name, g fd2)) fd.name = some (g fd) := by
  induction fds with
  | nil => simp at hmem
  | cons f0 tl ih =>
    simp only [List.map_cons, List.nodup_cons, List.mem_map] at h
    rcases List.mem_cons.mp hmem with rfl | hmem2
    · simp [lookupVal]
    · have hne : f0.name ≠ fd.name := by
        intro he
        exact h.1 ⟨fd, hmem2, he.symm⟩
      simp only [List.map_cons, lookupVal]
      rw [if_neg hne]
      exact ih h.2 hmem2

/-- General decode-of-encode: encoding an instance against `m` extended
with extra declared fields and decoding the bytes against `m` alone
yields the zero-value normalization of the instance against `m`. -/
theorem decode_encode_general (m : MessageDef) (extra : List FieldDef)
    (i : MsgInstance) (hwf : wfMessage ⟨m.name, m.fields ++ extra⟩)
    (hv : validInstance ⟨m.name, m.fields ++ extra⟩ i) :
    decode m (encode ⟨m.name, m.fields ++ extra⟩ i) = .ok (normalize m i) := by
  obtain ⟨_, hnodupNum, _⟩ := hwf
  simp only [List.map_append] at hnodupNum
  obtain ⟨hnodupM, _, hdisj⟩ := List.nodup_append.mp hnodupNum
  have hcond : ∀ fv ∈ presentFields (m.fields ++ extra) i,
      typeMatches fv.1.type fv.2 = true ∧
      ∀ fd2, findFieldByNumber m fv.1.number = some fd2 → fd2.type = fv.1.type := by
    intro fv hfv
    obtain ⟨hmem, hlk⟩ := mem_presentFields _ i fv hfv
    have hty := hv fv.1 hmem
    rw [hlk] at hty
    simp only [Option.all_some] at hty
    refine ⟨hty, ?_⟩
    rcases List.mem_append.mp hmem with hmm | hme
    · intro fd2 hfd2
      rw [findFieldByNumber_self m hnodupM fv.1 hmm] at hfd2
      cases hfd2
      rfl
    · intro fd2 hfd2
      rw [findFieldByNumber_none m fv.1.number
        (fun hc => hdisj hc (List.mem_map.mpr ⟨fv.1, hme, rfl⟩))] at hfd2
      cases hfd2
  have henc : encode ⟨m.name, m.fields ++ extra⟩ i =
      encodeFVs (presentFields (m.fields ++ extra) i) :=
    encode_eq_encodeFVs ⟨m.name, m.fields ++ extra⟩ i
  rw [henc]
  unfold decode
  rw [decodeLoop_encodeFVs m (presentFields (m.fields ++ extra) i) _ 0 le_rfl hcond]
  simp only [Except.map, Except.ok.injEq]
  have hsplit : presentFields (m.fields ++ extra) i =
      presentFields m.fields i ++ presentFields extra i := by
    simp [presentFields, List.filterMap_append]
  rw [hsplit]
  unfold knownPairs
  rw [List.filterMap_append]
  have hknown : ∀ fv ∈ presentFields m.fields i,
      (if (findFieldByNumber m fv.1.number).isSome = true
        then some (fv.1.number, fv.2) else none) = some (fv.1.number, fv.2) := by
    intro fv hfv
    obtain ⟨hmem, _⟩ := mem_presentFields _ i fv hfv
    rw [findFieldByNumber_self m hnodupM fv.1 hmem]
    simp
  have hunknown : ∀ fv ∈ presentFields extra i,
      (if (findFieldByNumber m fv.1.number).isSome = true
        then some (fv.1.number, fv.2) else none) = none := by
    intro fv hfv
    obtain ⟨hmem, _⟩ := mem_presentFields _ i fv hfv
    rw [findFieldByNumber_none m fv.1.number
      (fun hc => hdisj hc (List.mem_map.mpr ⟨fv.1, hmem, rfl⟩))]
    simp
  rw [List.filterMap_eq_map_iff_forall_eq_some.mpr hknown,
      List.filterMap_eq_nil_iff.mpr (by intro fv hfv; simp [hunknown fv hfv])]
  rw [List.append_nil]
  unfold buildInstance normalize
  apply List.map_congr_left
  intro fd hfd
  rw [lookupNum_presentFields m.fields i hnodupM fd hfd]

/-! ## Dispatch-table and server lemmas -/

theorem lookupHandler_eq_none (es : List (String × Handler)) (n : String) :
    lookupHandler es n = none ↔ n ∉ es.map Prod.fst := by
  induction es with
  | nil => simp [lookupHandler]
  | cons e tl ih =>
    obtain ⟨k, h⟩ := e
    by_cases hk : k = n
    · subst hk
      simp [lookupHandler]
    · simp only [lookupHandler, if_neg hk, List.map_cons, List.mem_cons, not_or, ih]
      constructor
      · exact fun hn => ⟨fun he => hk he.symm, hn⟩
      · exact fun hn => hn.2

/-- If setup succeeds, the registered names were distinct and none was
already present in the starting table. -/
theorem setupFrom_ok (regs : List (String × Handler)) :
    ∀ (t t2 : DispatchTable), setupFrom t regs = .ok t2 →
    (regs.map Prod.fst).Nodup ∧
    ∀ nm ∈ regs.map Prod.fst, lookupHandler t.entries nm = none := by
  induction regs with
  | nil => intro t t2 _; simp
  | cons r tl ih =>
    intro t t2 hok
    obtain ⟨n, h⟩ := r
    simp only [setupFrom] at hok
    cases hreg : register t n h with
    | error e => rw [hreg] at hok; cases hok
    | ok t3 =>
      rw [hreg] at hok
      obtain ⟨htl, habs⟩ := ih t3 t2 hok
      unfold register at hreg
      cases hlk : lookupHandler t.entries n with
      | some h0 => rw [hlk] at hreg; cases hreg
      | none =>
        rw [hlk] at hreg
        cases hreg
        have hentries : ∀ nm ∈ tl.map Prod.fst, lookupHandler t.entries nm = none ∧ nm ≠ n := by
          intro nm hnm
          have h3 := habs nm hnm
          rw [lookupHandler_eq_none] at h3 ⊢
          simp only [List.map_append] at h3
          rw [List.mem_append] at h3
          push_neg at h3
          refine ⟨h3.1, ?_⟩
          intro he
          exact h3.2 (by simp [he])
        constructor
        · rw [List.map_cons, List.nodup_cons]
          exact ⟨fun hc => (hentries n hc).2 rfl, htl⟩
        · intro nm hnm
          rw [List.map_cons, List.mem_cons] at hnm
          rcases hnm with rfl | hnm2
          · exact hlk
          · exact (hentries nm hnm2).1

theorem serverStep_cons (sch : SchemaModel) (t : DispatchTable)
    (req : List Nat) (rest sent : List (List Nat)) :
    serverStep ⟨sch, t, req :: rest, sent, false⟩ =
      ⟨sch, t, rest, sent ++ [handleRequestBytes sch t req], false⟩ := by
  simp [serverStep]

theorem serverStep_model_table (s : ConnState) :
    (serverStep s).model = s.model ∧ (serverStep s).table = s.table := by
  unfold serverStep
  split
  · exact ⟨rfl, rfl⟩
  · split
    · exact ⟨rfl, rfl⟩
    · exact ⟨rfl, rfl⟩

theorem clientStep_model (tr : Transport) (s : ClientState) :
    (clientStep tr s).model = s.model := by
  unfold clientStep
  split
  · rfl
  · rfl

/-- When the request frame parses, the method resolves, the body decodes,
and the handler raises `re`, the server's response is the error frame for
`re`. -/
theorem handleRequestBytes_handler_error (sch : SchemaModel) (t : DispatchTable)
    (req : List Nat) (mName : String) (body : List Nat) (hnd : Handler)
    (reqDef respDef : MessageDef) (inst : MsgInstance) (re : RemoteError)
    (h1 : decodeRequestFrame req = .ok (mName, body))
    (h2 : resolve t mName = .ok hnd)
    (h3 : findMethod sch mName = some (reqDef, respDef))
    (h4 : decode reqDef body = .ok inst)
    (h5 : hnd inst = .error re) :
    handleRequestBytes sch t req = encodeErrFrame re.code re.message := by
  simp [handleRequestBytes, h1, h2, h3, h4, h5]

/-! ## Parser resolution lemmas -/

theorem resolveFieldType_ok (msgs : List RawMessage) (mN fN ty : String)
    (ft : FieldType) (h : resolveFieldType msgs mN fN ty = .ok ft) :
    isPrimType ft = true ∨ ∃ nm, ft = .msgRef nm ∧ msgs.any (·.name = nm) = true := by
  unfold resolveFieldType at h
  split_ifs at h with hc1 hc2 hc3 hc4
  · cases h; left; rfl
  · cases h; left; rfl
  · cases h; left; rfl
  · cases h; right; exact ⟨ty, rfl, hc4⟩

theorem resolveFields_ok (msgs : List RawMessage) (mN : String) :
    ∀ (rfs : List RawField) (fds : List FieldDef),
    resolveFields msgs mN rfs = .ok fds →
    ∀ fd ∈ fds, isPrimType fd.type = true ∨
      ∃ nm, fd.type = .msgRef nm ∧ msgs.any (·.name = nm) = true := by
  intro rfs
  induction rfs with
  | nil =>
    intro fds h fd hfd
    simp only [resolveFields] at h
    cases h
    simp at hfd
  | cons rf tl ih =>
    intro fds h fd hfd
    simp only [resolveFields] at h
    cases hft : resolveFieldType msgs mN rf.name rf.typeName with
    | error e => rw [hft] at h; cases h
    | ok ft =>
      rw [hft] at h
      cases hrest : resolveFields msgs mN tl with
      | error e => rw [hrest] at h; cases h
      | ok fds2 =>
        rw [hrest] at h
        cases h
        rcases List.mem_cons.mp hfd with rfl | hmem
        · exact resolveFieldType_ok msgs mN rf.name rf.typeName ft hft
        · exact ih fds2 hrest fd hmem

theorem resolveMessages_names_and_ok (msgs : List RawMessage) :
    ∀ (rms : List RawMessage) (mds : List MessageDef),
    resolveMessages msgs rms = .ok mds →
    mds.map (·.name) = rms.map (·.name) ∧
    ∀ md ∈ mds, ∀ fd ∈ md.fields, isPrimType fd.type = true ∨
      ∃ nm, fd.type = .msgRef nm ∧ msgs.any (·.name = nm) = true := by
  intro rms
  induction rms with
  | nil =>
    intro mds h
    simp only [resolveMessages] at h
    cases h
    exact ⟨rfl, by simp⟩
  | cons rm tl ih =>
    intro mds h
    simp only [resolveMessages] at h
    cases hf : resolveFields msgs rm.name rm.fields with
    | error e => rw [hf] at h; cases h
    | ok fds =>
      rw [hf] at h
      cases hrest : resolveMessages msgs tl with
      | error e => rw [hrest] at h; cases h
      | ok mds2 =>
        rw [hrest] at h
        cases h
        obtain ⟨hn, hok⟩ := ih mds2 hrest
        constructor
        · simp [hn]
        · intro md hmd fd hfd
          rcases List.mem_cons.mp hmd with rfl | hmem
          · exact resolveFields_ok msgs rm.name rm.fields fds hf fd hfd
          · exact hok md hmem fd hfd

/-! ## Claim theorems -/

/-- C1: for the schema declaring `Empty{}`, `Dog{name:string=1,
age:int32=2}` and `DogService{GetDog(Empty) returns (Dog)}`, with the
server's registered `GetDog` handler, a client call `GetDog({})` returns
exactly the instance `{name:"Spot", age:5}`. -/
theorem getDog_end_to_end :
    clientCall dogSchema loopbackTransport "GetDog" [] = .ok spotInstance := rfl

/-- C10: the `GetDog` handler's response is independent of its request:
on any input it produces `{name:"Spot", age:5}`, so any two runs with
different requests produce the same response. -/
theorem getDogHandler_constant (i1 i2 : MsgInstance) :
    getDogHandler i1 = .ok spotInstance ∧ getDogHandler i1 = getDogHandler i2 :=
  ⟨rfl, rfl⟩

/-- C4: round-trip law — for every well-formed `MessageDef` `m` and valid
instance `i`, decoding the encoding of `i` against `m` yields `i` with
absent fields normalized to their type's zero value: the result is
`normalize m i`, which agrees with `i` on every present field and maps
each absent field to its zero value. -/
theorem decode_encode_roundtrip (m : MessageDef) (i : MsgInstance)
    (hwf : wfMessage m) (hv : validInstance m i) :
    decode m (encode m i) = .ok (normalize m i) ∧
    ∀ fd ∈ m.fields, lookupVal (normalize m i) fd.name =
      some ((lookupVal i fd.name).getD (zeroValue fd.type)) := by
  have hm : (⟨m.name, m.fields ++ []⟩ : MessageDef) = m := by
    cases m; simp
  constructor
  · have hgen := decode_encode_general m [] i (hm.symm ▸ hwf) (hm.symm ▸ hv)
    rwa [hm] at hgen
  · intro fd hfd
    unfold normalize
    exact lookupVal_map_fields m.fields _ hwf.2.2 fd hfd

/-- Witness for C4 at the `Dog` message and the instance
`{name:"Spot", age:5}`. -/
theorem decode_encode_roundtrip_witness :
    wfMessage dogDef ∧ validInstance dogDef spotInstance ∧
    decode dogDef (encode dogDef spotInstance) = .ok (normalize dogDef spotInstance) :=
  ⟨by decide, by decide,
   (decode_encode_roundtrip dogDef spotInstance (by decide) (by decide)).1⟩

/-- C6: forward compatibility — bytes encoded against `m` extended with
extra field numbers not declared in `m` decode successfully against `m`,
ignoring the unknown field numbers; and every declared field absent from
the bytes decodes to its type's zero value. -/
theorem decode_unknown_fields_and_zero_defaults (m : MessageDef)
    (extra : List FieldDef) (i : MsgInstance)
    (hwf : wfMessage ⟨m.name, m.fields ++ extra⟩)
    (hv : validInstance ⟨m.name, m.fields ++ extra⟩ i) :
    decode m (encode ⟨m.name, m.fields ++ extra⟩ i) = .ok (normalize m i) ∧
    ∀ fd ∈ m.fields, lookupVal i fd.name = none →
      lookupVal (normalize m i) fd.name = some (zeroValue fd.type) := by
  constructor
  · exact decode_encode_general m extra i hwf hv
  · intro fd hfd hnone
    unfold normalize
    have hnames : (m.fields.map (·.name)).Nodup := by
      have h2 := hwf.2.2
      simp only [List.map_append] at h2
      exact (List.nodup_append.mp h2).1
    have hlk := lookupVal_map_fields m.fields
      (fun fd2 => (lookupVal i fd2.name).getD (zeroValue fd2.type)) hnames fd hfd
    rw [hlk]
    simp [hnone]

/-- C2: when a request's handler raises an application error, the server
answers with an error response frame carrying the error's code and
message, the connection stays open, and the next pending request on the
same connection is still served. -/
theorem handler_error_is_error_response (sch : SchemaModel) (t : DispatchTable)
    (pending sent : List (List Nat)) (req : List Nat) (mName : String)
    (body : List Nat) (hnd : Handler) (reqDef respDef : MessageDef)
    (inst : MsgInstance) (re : RemoteError)
    (h1 : decodeRequestFrame req = .ok (mName, body))
    (h2 : resolve t mName = .ok hnd)
    (h3 : findMethod sch mName = some (reqDef, respDef))
    (h4 : decode reqDef body = .ok inst)
    (h5 : hnd inst = .error re) :
    serverStep ⟨sch, t, req :: pending, sent, false⟩ =
      ⟨sch, t, pending, sent ++ [encodeErrFrame re.code re.message], false⟩ ∧
    (serverStep ⟨sch, t, req :: pending, sent, false⟩).closed = false ∧
    ∀ req2 rest2, pending = req2 :: rest2 →
      serverStep (serverStep ⟨sch, t, req :: pending, sent, false⟩) =
        ⟨sch, t, rest2, (sent ++ [encodeErrFrame re.code re.message]) ++
          [handleRequestBytes sch t req2], false⟩ := by
  have he := handleRequestBytes_handler_error sch t req mName body hnd
    reqDef respDef inst re h1 h2 h3 h4 h5
  have hstep := serverStep_cons sch t req pending sent
  rw [he] at hstep
  refine ⟨hstep, by rw [hstep], ?_⟩
  intro req2 rest2 hp
  subst hp
  rw [hstep, serverStep_cons]

/-- Witness for C2: the demo schema with a `GetDog` handler that raises
`RemoteError{13, "boom"}`; the server answers the error frame and stays
open. -/
theorem handler_error_is_error_response_witness :
    serverStep ⟨dogSchema, boomTable, [encodeRequestFrame "GetDog" []], [], false⟩ =
      ⟨dogSchema, boomTable, [], [encodeErrFrame 13 "boom"], false⟩ :=
  (handler_error_is_error_response dogSchema boomTable [] []
    (encodeRequestFrame "GetDog" []) "GetDog" [] boomHandler emptyDef dogDef
    [] ⟨13, "boom"⟩ rfl rfl rfl rfl rfl).1

/-- C5: registering under an already-taken method name fails with
`DuplicateHandlerError` (and a registration list with a duplicate name
makes server setup fail, so the server does not start); resolving an
unregistered name fails with `UnknownMethodError`, and the server answers
such a request with an error frame and keeps serving instead of
crashing. -/
theorem dispatch_contract :
    (∀ (t : DispatchTable) (name : String) (hnd : Handler),
      (∃ h0, lookupHandler t.entries name = some h0) →
        register t name hnd = .error ⟨name⟩) ∧
    (∀ (t : DispatchTable) (name : String),
      lookupHandler t.entries name = none → resolve t name = .error ⟨name⟩) ∧
    (∀ regs : List (String × Handler), ¬(regs.map Prod.fst).Nodup →
      ∃ e, setupServer regs = .error e) ∧
    (∀ (sch : SchemaModel) (t : DispatchTable) (pending sent : List (List Nat))
        (req : List Nat) (mName : String) (body : List Nat),
      decodeRequestFrame req = .ok (mName, body) →
      lookupHandler t.entries mName = none →
      serverStep ⟨sch, t, req :: pending, sent, false⟩ =
        ⟨sch, t, pending,
          sent ++ [encodeErrFrame unknownMethodCode ("unknown method " ++ mName)],
          false⟩) := by
  refine ⟨?_, ?_, ?_, ?_⟩
  · rintro t name hnd ⟨h0, hl⟩
    unfold register
    rw [hl]
  · intro t name hl
    unfold resolve
    rw [hl]
  · intro regs hnd
    cases hs : setupServer regs with
    | error e => exact ⟨e, rfl⟩
    | ok t2 =>
      unfold setupServer at hs
      exact absurd (setupFrom_ok regs ⟨[]⟩ t2 hs).1 hnd
  · intro sch t pending sent req mName body h1 h2
    rw [serverStep_cons]
    have hh : handleRequestBytes sch t req =
        encodeErrFrame unknownMethodCode ("unknown method " ++ mName) := by
      simp [handleRequestBytes, h1, resolve, h2]
    rw [hh]

/-- Witness for C5: duplicate registration of `GetDog` fails and setup
aborts; resolving the unregistered `PetDog` fails with
`UnknownMethodError`. -/
theorem dispatch_contract_witness :
    register dogTable "GetDog" boomHandler = .error ⟨"GetDog"⟩ ∧
    resolve dogTable "PetDog" = .error ⟨"PetDog"⟩ ∧
    ∃ e, setupServer [("GetDog", getDogHandler), ("GetDog", getDogHandler)] = .error e :=
  ⟨dispatch_contract.1 dogTable "GetDog" boomHandler ⟨getDogHandler, rfl⟩,
   dispatch_contract.2.1 dogTable "PetDog" rfl,
   dispatch_contract.2.2.1 [("GetDog", getDogHandler), ("GetDog", getDogHandler)]
     (by decide)⟩

/-- C3: every client call either returns the instance decoded from a
status-ok response — never a partial or garbage result — or fails with
one of the typed client errors (`ConnectionError`, `TimeoutError`,
`MalformedWireError`, `RemoteError{code,message}`, `UnknownMethodError`,
the only inhabitants of `ClientError`); no failure path is dropped. -/
theorem clientCall_typed_outcome (sch : SchemaModel) (tr : Transport)
    (mName : String) (req : MsgInstance) :
    (∃ e : ClientError, clientCall sch tr mName req = .error e) ∨
    (∃ reqDef respDef resp payload out,
      findMethod sch mName = some (reqDef, respDef) ∧
      tr (encodeRequestFrame mName (encode reqDef req)) = .delivered resp ∧
      decodeResponseFrame resp = .ok (0, payload) ∧
      decode respDef payload = .ok out ∧
      clientCall sch tr mName req = .ok out) := by
  cases h1 : findMethod sch mName with
  | none => exact .inl ⟨.unknownMethod ⟨mName⟩, by simp [clientCall, h1]⟩
  | some pr =>
    obtain ⟨rq, rs⟩ := pr
    cases h2 : tr (encodeRequestFrame mName (encode rq req)) with
    | connFail => exact .inl ⟨.connectionError, by simp [clientCall, h1, h2]⟩
    | timedOut => exact .inl ⟨.timeoutError, by simp [clientCall, h1, h2]⟩
    | delivered resp =>
      cases h3 : decodeResponseFrame resp with
      | error e => exact .inl ⟨.malformedWire e, by simp [clientCall, h1, h2, h3]⟩
      | ok sp =>
        obtain ⟨status, payload⟩ := sp
        by_cases h0 : status = 0
        · subst h0
          cases h4 : decode rs payload with
          | error e =>
            exact .inl ⟨.malformedWire e, by simp [clientCall, h1, h2, h3, h4]⟩
          | ok out =>
            exact .inr ⟨rq, rs, resp, payload, out, rfl, h2, h3, h4,
              by simp [clientCall, h1, h2, h3, h4]⟩
        · cases payload with
          | nil =>
            exact .inl ⟨.malformedWire ⟨5, "empty error payload"⟩,
              by simp [clientCall, h1, h2, h3, h0]⟩
          | cons code msgSyms =>
            exact .inl ⟨.remote ⟨code, symsStr msgSyms⟩,
              by simp [clientCall, h1, h2, h3, h0]⟩

/-- C8: after setup, no server-runtime or client-stub operation mutates
the schema model or the dispatch table: any number of server steps leaves
both unchanged, and any number of client calls leaves the client's schema
model unchanged. -/
theorem model_table_immutable :
    (∀ (s : ConnState) (n : Nat),
      (serverStep^[n] s).model = s.model ∧ (serverStep^[n] s).table = s.table) ∧
    (∀ (tr : Transport) (cs : ClientState) (n : Nat),
      ((clientStep tr)^[n] cs).model = cs.model) := by
  constructor
  · intro s n
    induction n with
    | zero => simp
    | succ k ih =>
      rw [Function.iterate_succ_apply']
      obtain ⟨h1, h2⟩ := serverStep_model_table (serverStep^[k] s)
      exact ⟨h1.trans ih.1, h2.trans ih.2⟩
  · intro tr cs n
    induction n with
    | zero => simp
    | succ k ih =>
      rw [Function.iterate_succ_apply']
      exact (clientStep_model tr ((clientStep tr)^[k] cs)).trans ih

/-- C7: parsing is total over the declared grammar — non-matching input
fails with a positioned syntax error and a successful parse is never a
partial model (every field type in the result resolves to a primitive or
a declared message); unresolvable field types fail with
`UnknownTypeError{messageName, fieldName, typeName}` only after all
messages are parsed, so a forward reference to a message declared later
in the file succeeds. -/
theorem parse_contract :
    (∀ (text : String) (sch : SchemaModel), parse text = .ok sch → resolvedModel sch) ∧
    parse "message \x7b" = .error (.synErr 1 1 "expected message or service block") ∧
    parse "message A \x7b B b = 1; \x7d message B \x7b \x7d" =
      .ok ⟨[⟨"A", [⟨"b", 1, .msgRef "B"⟩]⟩, ⟨"B", []⟩], []⟩ ∧
    parse "message A \x7b Wolf b = 1; \x7d" = .error (.unknownType "A" "b" "Wolf") := by
  refine ⟨?_, rfl, rfl, rfl⟩
  intro text sch h
  unfold parse at h
  cases ht : tokenize text with
  | error e => rw [ht] at h; cases h
  | ok toks =>
    rw [ht] at h
    dsimp only at h
    cases hp : parseTop (toks.length + 1) toks with
    | error e => rw [hp] at h; cases h
    | ok pr =>
      rw [hp] at h
      dsimp only at h
      obtain ⟨rawMsgs, svcs⟩ := pr
      cases hr : resolveMessages rawMsgs rawMsgs with
      | error e => rw [hr] at h; cases h
      | ok msgs =>
        rw [hr] at h
        cases h
        obtain ⟨hnames, hok⟩ := resolveMessages_names_and_ok rawMsgs rawMsgs msgs hr
        unfold resolvedModel
        intro md hmd fd hfd
        rcases hok md hmd fd hfd with hprim | ⟨nm, hty, hany⟩
        · exact .inl hprim
        · refine .inr ⟨nm, hty, ?_⟩
          rw [List.any_eq_true] at hany
          obtain ⟨rm, hrm, hrmname⟩ := hany
          simp only [decide_eq_true_eq] at hrmname
          have hmem : nm ∈ msgs.map (·.name) := by
            rw [hnames]
            exact List.mem_map.mpr ⟨rm, hrm, hrmname⟩
          obtain ⟨md2, hmd2, hmd2name⟩ := List.mem_map.mp hmem
          unfold findMessage
          rw [List.find?_isSome]
          exact ⟨md2, hmd2, by simp [hmd2name]⟩

set_option maxRecDepth 8192 in
/-- Witness for C7: the demo's schema text parses to exactly the demo's
schema model, which is fully resolved. -/
theorem parse_contract_witness :
    parse dogProtoText = .ok dogSchema ∧ resolvedModel dogSchema :=
  ⟨rfl, parse_contract.1 dogProtoText dogSchema rfl⟩

/-- Witness for C6: `Dog` extended with an unknown `weight` field; the
extended encoding decodes against plain `Dog`, dropping `weight`. -/
theorem decode_unknown_fields_witness :
    wfMessage ⟨dogDef.name, dogDef.fields ++ [weightField]⟩ ∧
    validInstance ⟨dogDef.name, dogDef.fields ++ [weightField]⟩
      (spotInstance ++ [("weight", .int 30)]) ∧
    decode dogDef (encode ⟨dogDef.name, dogDef.fields ++ [weightField]⟩
        (spotInstance ++ [("weight", .int 30)])) =
      .ok (normalize dogDef (spotInstance ++ [("weight", .int 30)])) :=
  ⟨by decide, by decide,
   (decode_unknown_fields_and_zero_defaults dogDef [weightField]
     (spotInstance ++ [("weight", .int 30)]) (by decide) (by decide)).1⟩

end RpcCore

